import Mathlib

/-!
Shallow embedding of the transactional core of the kaspa-wallet repository
(`src/wallet/Wallet.ts` and `src/wallet/UtxoSet.ts`).

JavaScript objects keyed by strings are modelled as insertion-ordered
association lists, matching the iteration order of `Object.keys` /
`Object.entries` over string-keyed objects.  Fallible operations return
`Except`; methods that mutate state before throwing return the mutated
state together with an optional error.
-/

/-- Key lookup in a string-keyed JavaScript object modelled as an
insertion-ordered association list.  `none` models `undefined`. -/
def lookupId {α : Type} : List (String × α) → String → Option α
  | [], _ => none
  | (k, v) :: rest, id => if k = id then some v else lookupId rest id

/-- JavaScript `Array.prototype.indexOf`: index of the first occurrence,
`-1` when absent. -/
def jsIndexOf : List String → String → Int
  | [], _ => -1
  | a :: rest, x =>
    if a = x then 0
    else
      let r := jsIndexOf rest x
      if r = -1 then -1 else r + 1

/-- JavaScript strict inequality `!==` between a number and a string:
operands of different runtime types are never strictly equal, so the
comparison is always `true`.  `UtxoSet.add` (UtxoSet.ts line 25) compares
`this.inUse.indexOf(utxoId)` (a number) with `utxoId` (a string) this way. -/
def jsNumStrictNeqStr (_n : Int) (_s : String) : Bool := true

/-- A JavaScript number that may be NaN (e.g. the result of
`undefined - x`). -/
inductive JsNumber where
  | nan : JsNumber
  | int : Int → JsNumber
deriving Repr, DecidableEq

/-- In JavaScript `undefined - n` is NaN; `a - n` is ordinary subtraction. -/
def jsSub : Option Int → Int → JsNumber
  | none, _ => JsNumber.nan
  | some a, b => JsNumber.int (a - b)

/-- Errors thrown by the wallet core. -/
inductive WalletError where
  | insufficientFunds (required available : Nat)
  | amountTooLarge
  | typeError (message : String)
  | networkError (message : String)
deriving Repr, DecidableEq

/-- A UTXO as returned by the kaspa API (`Api.Utxo`). -/
structure ApiUtxo where
  transactionId : String
  index : Nat
  scriptPubKey : String
  value : Nat
deriving Repr, DecidableEq

/-- The outpoint key used by `UtxoSet.add`:
`utxo.transactionId + utxo.index.toString()`. -/
def apiUtxoId (u : ApiUtxo) : String := u.transactionId ++ toString u.index

/-- A stored `bitcore.Transaction.UnspentOutput` as constructed by
`UtxoSet.add`. -/
structure UnspentOutput where
  txid : String
  address : String
  vout : Nat
  scriptPubKey : String
  satoshis : Nat
deriving Repr, DecidableEq

/-- The `UtxoSet` class state.  `utxos` is the string-keyed object of known
UTXOs, `inUse` the array of reserved outpoint ids, `availableBalance` the
declared field initialised to 0.  `balance` models the property created
dynamically by the assignment `this.balance = ...` inside
`updateUtxoBalance`; it starts out absent (`none`, i.e. `undefined`). -/
structure UtxoSet where
  utxos : List (String × UnspentOutput)
  inUse : List String
  availableBalance : Nat
  balance : Option Nat
deriving Repr, DecidableEq

/-- A fresh `new UtxoSet()`. -/
def UtxoSet.empty : UtxoSet :=
  { utxos := [], inUse := [], availableBalance := 0, balance := none }

/-- The sum computed by `updateUtxoBalance`: over the keys of `utxos` whose
`inUse.indexOf(key) === -1`, sum the stored `satoshis`. -/
def UtxoSet.notInUseSum (s : UtxoSet) : Nat :=
  (((s.utxos.filter (fun p => jsIndexOf s.inUse p.1 = -1)).map
      (fun p => p.2.satoshis)).sum)

/-- Method `updateUtxoBalance` (UtxoSet.ts lines 46-49): recomputes the sum of the
values of known, not-in-use UTXOs and assigns it to `this.balance` — an
undeclared property — leaving the declared `availableBalance` field
untouched. -/
def UtxoSet.updateUtxoBalance (s : UtxoSet) : UtxoSet :=
  { s with balance := some s.notInUseSum }

/-- The loop body of `UtxoSet.add` (UtxoSet.ts lines 23-35): for each
incoming UTXO, compute its id; insert it when `!this.utxos[utxoId]` and
`this.inUse.indexOf(utxoId) !== utxoId` (a number/string comparison, hence
always true); record the ids actually inserted, in order. -/
def UtxoSet.addLoop (inUse : List String) (address : String) :
    List ApiUtxo → List (String × UnspentOutput) →
      List (String × UnspentOutput) × List String
  | [], acc => (acc, [])
  | u :: rest, acc =>
    let utxoId := apiUtxoId u
    if (lookupId acc utxoId).isNone &&
        jsNumStrictNeqStr (jsIndexOf inUse utxoId) utxoId then
      let acc1 := acc ++ [(utxoId,
        { txid := u.transactionId, address := address, vout := u.index,
          scriptPubKey := u.scriptPubKey, satoshis := u.value })]
      let r := UtxoSet.addLoop inUse address rest acc1
      (r.1, utxoId :: r.2)
    else
      UtxoSet.addLoop inUse address rest acc

/-- Method `UtxoSet.add` (UtxoSet.ts lines 21-39): insert the incoming UTXOs that
pass the guard, call `updateUtxoBalance`, and return the newly inserted
ids. -/
def UtxoSet.add (s : UtxoSet) (incoming : List ApiUtxo) (address : String) :
    UtxoSet × List String :=
  let r := UtxoSet.addLoop s.inUse address incoming s.utxos
  (UtxoSet.updateUtxoBalance { s with utxos := r.1 }, r.2)

/-- Method `UtxoSet.enable` (UtxoSet.ts lines 41-44): reassigns `inUse` to a new
array without any of the given ids
(`this.inUse.filter((utxoId) => utxoIdsToEnable.indexOf(utxoId) === -1)`). -/
def UtxoSet.enable (s : UtxoSet) (utxoIdsToEnable : List String) : UtxoSet :=
  { s with inUse := s.inUse.filter (fun utxoId => jsIndexOf utxoIdsToEnable utxoId = -1) }

/-- Method `UtxoSet.clear` (UtxoSet.ts lines 51-55): resets `utxos`, `inUse` and
`availableBalance`.  The dynamically created `balance` property is not
touched. -/
def UtxoSet.clear (s : UtxoSet) : UtxoSet :=
  { s with utxos := [], inUse := [], availableBalance := 0 }

/-- Input reservation as performed by `Wallet.composeTx`
(Wallet.ts line 206): `this.utxoSet.inUse.push(...utxoIds)`. -/
def UtxoSet.reserve (s : UtxoSet) (utxoIds : List String) : UtxoSet :=
  { s with inUse := s.inUse ++ utxoIds }

/-- The `for...of Object.entries(this.utxos)` loop of `selectUtxos`
(UtxoSet.ts lines 66-73).  The source checks
`if (totalVal >= txAmount) break;` after every entry (selected or
skipped); that check is transcribed into each branch here. -/
def UtxoSet.selectLoop (inUse : List String) (txAmount : Nat) :
    List (String × UnspentOutput) → Nat →
      List String × List UnspentOutput × Nat
  | [], totalVal => ([], [], totalVal)
  | (utxoId, utxo) :: rest, totalVal =>
    if jsIndexOf inUse utxoId = -1 then
      let total1 := totalVal + utxo.satoshis
      if txAmount ≤ total1 then ([utxoId], [utxo], total1)
      else
        let r := UtxoSet.selectLoop inUse txAmount rest total1
        (utxoId :: r.1, utxo :: r.2.1, r.2.2)
    else
      if txAmount ≤ totalVal then ([], [], totalVal)
      else UtxoSet.selectLoop inUse txAmount rest totalVal

/-- Method `UtxoSet.selectUtxos` (UtxoSet.ts lines 62-77): scan the known UTXOs in
insertion order, skipping in-use ones, accumulating until the running total
covers `txAmount`; throw the compose error (need / scanned balance) when the
scan ends short of the target. -/
def UtxoSet.selectUtxos (s : UtxoSet) (txAmount : Nat) :
    Except WalletError (List String × List UnspentOutput) :=
  let r := UtxoSet.selectLoop s.inUse txAmount s.utxos 0
  if r.2.2 < txAmount then
    Except.error (WalletError.insufficientFunds txAmount r.2.2)
  else
    Except.ok (r.1, r.2.1)

/-- Reading the `totalBalance` property of a `UtxoSet`.  UtxoSet.ts declares
`utxos`, `inUse`, `availableBalance`, the `length` getter and (dynamically,
via `updateUtxoBalance`) `balance`; it has no `totalBalance` member, so the
property read performed by `Wallet.updateBalance` yields `undefined`. -/
def UtxoSet.totalBalance (_s : UtxoSet) : Option Int := none

/-- The method set of `UtxoSet` contains no `release`; the rollback call
`this.utxoSet.release(utxoIds)` in `Wallet.deleteTx` therefore invokes
`undefined` and throws a TypeError at runtime (the in-use removal method is
named `enable`). -/
def UtxoSet.hasRelease : Bool := false

/-- An entry of `Wallet.pending.transactions`. -/
structure PendingTx where
  utxoIds : List String
  rawTx : String
  amount : Nat
deriving Repr, DecidableEq

/-- The `Wallet.pending` object (Wallet.ts lines 41-51). -/
structure PendingTransactions where
  transactions : List (String × PendingTx)
deriving Repr, DecidableEq

/-- The `amount` getter (Wallet.ts lines 43-47): sum of the `amount` fields
of all tracked pending transactions (0 when empty). -/
def PendingTransactions.amount (p : PendingTransactions) : Nat :=
  ((p.transactions.map (fun q => q.2.amount)).sum)

/-- Key assignment `obj[id] = tx` on a string-keyed JavaScript object: an
existing key keeps its position and receives the new value; a fresh key is
appended (JS property insertion order). -/
def setKey {α : Type} : List (String × α) → String → α → List (String × α)
  | [], id, tx => [(id, tx)]
  | (k, v) :: rest, id, tx =>
    if k = id then (id, tx) :: rest else (k, v) :: setKey rest id tx

/-- Method `pending.add` (Wallet.ts lines 48-50): `this.transactions[id] = tx` —
a plain assignment, with no duplicate-id check. -/
def PendingTransactions.add (p : PendingTransactions) (id : String)
    (tx : PendingTx) : PendingTransactions :=
  { transactions := setKey p.transactions id tx }

/-- Statement `delete this.pending.transactions[id]` (Wallet.ts line 235). -/
def PendingTransactions.remove (p : PendingTransactions) (id : String) :
    PendingTransactions :=
  { transactions := p.transactions.filter (fun q => q.1 ≠ id) }

/-- The wallet state relevant to the transactional core.  `balance` is the
`number | undefined` field (`none` models `undefined`, `some .nan` a stored
NaN).  `receiveCursor` and `changeCursor` model the AddressManager cursors
advanced by `next()`; derivation itself is a collaborator concern. -/
structure Wallet where
  utxoSet : UtxoSet
  pending : PendingTransactions
  balance : Option JsNumber
  receiveCursor : Nat
  changeCursor : Nat
deriving Repr, DecidableEq

/-- Method `Wallet.updateBalance` (Wallet.ts lines 124-126):
`this.balance = this.utxoSet.totalBalance - this.pending.amount`.  The
`totalBalance` read yields `undefined`, so the stored value is NaN. -/
def Wallet.updateBalance (w : Wallet) : Wallet :=
  { w with balance := some (jsSub w.utxoSet.totalBalance (w.pending.amount : Int)) }

/-- The value returned by `Wallet.composeTx`. -/
structure ComposeResult where
  id : String
  rawTx : String
  utxoIds : List String
  amount : Nat
deriving Repr, DecidableEq

/-- Method `Wallet.composeTx` (Wallet.ts lines 181-212).  Key lookup and bitcore
transaction building/signing are collaborator calls without wallet-state
effect; the signed transaction's id and serialization enter as the `txId`
and `rawTx` arguments.  The change / receive address `next()` calls advance
the corresponding cursors.  State mutations (reserve inputs, record pending,
recompute balances) happen only after selection succeeds. -/
def Wallet.composeTx (w : Wallet) (amount fee : Nat) (txId rawTx : String) :
    Except WalletError (Wallet × ComposeResult) :=
  if 2 ^ 53 ≤ amount then Except.error WalletError.amountTooLarge
  else
    match w.utxoSet.selectUtxos (amount + fee) with
    | Except.error e => Except.error e
    | Except.ok sel =>
      let utxoIds := sel.1
      let s1 := UtxoSet.reserve w.utxoSet utxoIds
      let p1 := w.pending.add txId
        { utxoIds := utxoIds, rawTx := rawTx, amount := amount + fee }
      let s2 := s1.updateUtxoBalance
      let w1 := Wallet.updateBalance
        { w with utxoSet := s2, pending := p1, changeCursor := w.changeCursor + 1 }
      let w2 := { w1 with receiveCursor := w1.receiveCursor + 1 }
      Except.ok (w2, { id := txId, rawTx := rawTx, utxoIds := utxoIds,
                       amount := amount + fee })

/-- Message of the TypeError thrown when `this.utxoSet.release` (which is
`undefined`) is called. -/
def releaseMissingMsg : String := "this.utxoSet.release is not a function"

/-- Message of the TypeError thrown when destructuring
`this.pending.transactions[id]` while no such entry exists. -/
def missingPendingMsg : String := "cannot destructure undefined pending entry"

/-- Method `Wallet.deleteTx` (Wallet.ts lines 233-239): reads the pending entry,
deletes it, then calls `this.utxoSet.release(utxoIds)`.  `UtxoSet` defines
no `release` method, so the call throws a TypeError after the pending entry
has already been removed; the `enable`-based rollback, balance
recomputation included, is never reached.  Returns the state as mutated so
far together with the thrown error, if any. -/
def Wallet.deleteTx (w : Wallet) (id : String) : Wallet × Option WalletError :=
  match lookupId w.pending.transactions id with
  | none => (w, some (WalletError.typeError missingPendingMsg))
  | some tx =>
    let w1 := { w with pending := w.pending.remove id }
    if UtxoSet.hasRelease then
      let s1 := (w1.utxoSet.enable tx.utxoIds).updateUtxoBalance
      (Wallet.updateBalance { w1 with utxoSet := s1 }, none)
    else
      (w1, some (WalletError.typeError releaseMissingMsg))

/-- Method `Wallet.sendTx` (Wallet.ts lines 222-231): compose, then broadcast via
`api.postTx`.  The broadcast collaborator outcome is the `broadcast`
argument: `none` models success, `some msg` a failure with that message.
On failure the catch block runs `this.deleteTx(id)` and then rethrows the
broadcast error — but `deleteTx` itself throws first, replacing it. -/
def Wallet.sendTx (w : Wallet) (amount fee : Nat) (txId rawTx : String)
    (broadcast : Option String) : Wallet × Except WalletError String :=
  match w.composeTx amount fee txId rawTx with
  | Except.error e => (w, Except.error e)
  | Except.ok r =>
    match broadcast with
    | none => (r.1, Except.ok r.2.id)
    | some msg =>
      match r.1.deleteTx r.2.id with
      | (w2, some e2) => (w2, Except.error e2)
      | (w2, none) => (w2, Except.error (WalletError.networkError msg))

/-- The recursive `doDiscovery` closure of `Wallet.addressDiscovery`
(Wallet.ts lines 133-158), per chain type.  Modelled from the spec:
`AddressManager.getAddresses(n, deriveType, offset)` (AddressManager is not
part of the given sources) derives descriptors for the absolute derivation
indices `[offset, offset + n)` (spec §4.4 step 2), derivation is injective
(§4.1), and `active i` tells whether the address at index `i` has any
transaction history (the `addTransactions` batch result).  The `fuel`
argument makes the unbounded recursion (spec §4.4 item 7) total: `none`
means the recursion was cut off. -/
def doDiscovery (active : Nat → Bool) (threshold : Nat) :
    Nat → Nat → Nat → Option Int
  | 0, _, _ => none
  | fuel + 1, n, offset =>
    let activeIdx := ((List.range n).map (fun i => offset + i)).filter active
    if activeIdx.length = 0 then
      some ((offset : Int) - ((threshold : Int) - (n : Int)) - 1)
    else
      doDiscovery active threshold fuel (activeIdx.foldl Nat.max 0 + 1) (offset + n)

/-- Modelled from the spec: `advanceCursor(chainType, toIndex)` sets the
cursor to `max(current, toIndex)` (spec §4.1); `addressDiscovery` calls it
with `highestIndex + 1` (Wallet.ts lines 161-162). -/
def advanceCursor (current : Nat) (toIndex : Int) : Nat :=
  Nat.max current toIndex.toNat

/-! ## Concrete states used by the theorems below -/

/-- Incoming API UTXO `("tx1", 0)` of value 500 (spec §8 example). -/
def exApi1 : ApiUtxo :=
  { transactionId := "tx1", index := 0, scriptPubKey := "s1", value := 500 }

/-- Incoming API UTXO `("tx2", 0)` of value 700 (spec §8 example). -/
def exApi2 : ApiUtxo :=
  { transactionId := "tx2", index := 0, scriptPubKey := "s2", value := 700 }

/-- Owner address used by the example states. -/
def addrA : String := "addrA"

/-- The UtxoSet obtained by adding the two example UTXOs, in that order, to
a fresh set. -/
def exSet : UtxoSet := (UtxoSet.empty.add [exApi1, exApi2] addrA).1

/-- The stored form of `exApi1`. -/
def exOut1 : UnspentOutput :=
  { txid := "tx1", address := addrA, vout := 0, scriptPubKey := "s1", satoshis := 500 }

/-- The stored form of `exApi2`. -/
def exOut2 : UnspentOutput :=
  { txid := "tx2", address := addrA, vout := 0, scriptPubKey := "s2", satoshis := 700 }

/-- A single stored UTXO of value 1000 with outpoint key `a0`. -/
def outA : UnspentOutput :=
  { txid := "a", address := addrA, vout := 0, scriptPubKey := "sa", satoshis := 1000 }

/-- Outpoint key of `outA`. -/
def idA0 : String := "a0"

/-- Transaction id produced by the signing collaborator in the examples. -/
def txId1 : String := "t1"

/-- Serialized transaction produced by the signing collaborator. -/
def raw1 : String := "raw1"

/-- Broadcast failure message used in the examples. -/
def msgDown : String := "connection refused"

/-- A wallet owning the single UTXO `outA`, nothing reserved, nothing
pending. -/
def w1000 : Wallet :=
  { utxoSet := { utxos := [(idA0, outA)], inUse := [], availableBalance := 0,
                 balance := none },
    pending := { transactions := [] },
    balance := none, receiveCursor := 1, changeCursor := 0 }

/-- The available balance as the spec defines it: sum of the values of
known UTXOs whose outpoint key is not in the in-use set. -/
def availableSum (s : UtxoSet) : Nat :=
  (((s.utxos.filter (fun p => !(s.inUse.contains p.1))).map
      (fun p => p.2.satoshis)).sum)

/-! ## C1 -/

/-- C1: refuted as stated — compose succeeds and the broadcast collaborator
fails on `w1000` (send 400 with fee 100), but the failure handler does not
restore the pre-compose state: `deleteTx` removes the pending entry and then
calls the nonexistent `utxoSet.release`, so the selected input `a0` stays
reserved, and the resulting TypeError replaces the broadcast error instead
of re-raising it. -/
theorem sendTx_broadcast_failure_state :
    (w1000.sendTx 400 100 txId1 raw1 (some msgDown)).2 =
        Except.error (WalletError.typeError releaseMissingMsg) ∧
    WalletError.typeError releaseMissingMsg ≠
        WalletError.networkError msgDown ∧
    (w1000.sendTx 400 100 txId1 raw1 (some msgDown)).1.utxoSet.inUse = [idA0] ∧
    w1000.utxoSet.inUse = [] ∧
    (w1000.sendTx 400 100 txId1 raw1 (some msgDown)).1.pending.transactions = [] := by
  refine ⟨rfl, by decide, rfl, rfl, rfl⟩

/-! ## C2 -/

/-- C2: refuted — `updateBalance` computes
`this.utxoSet.totalBalance - this.pending.amount`, but `UtxoSet` has no
`totalBalance` property, so the recomputed wallet balance is NaN rather
than the sum of known UTXO values (1000) minus the pending amount (0). -/
theorem updateBalance_reads_missing_totalBalance :
    w1000.updateBalance.balance = some JsNumber.nan ∧
    ((w1000.utxoSet.utxos.map (fun p => p.2.satoshis)).sum : Int) -
        (w1000.pending.amount : Int) = 1000 ∧
    w1000.updateBalance.balance ≠ some (JsNumber.int 1000) := by
  refine ⟨rfl, by decide, by decide⟩

/-! ## C3 -/

/-- C3: refuted — after `add` inserts the two example UTXOs (a membership
change), the declared `availableBalance` field is still 0 while the
recomputed sum of known not-in-use UTXO values is 1200; `updateUtxoBalance`
stored that sum in the undeclared `balance` property instead. -/
theorem updateUtxoBalance_misses_availableBalance :
    exSet.availableBalance = 0 ∧
    availableSum exSet = 1200 ∧
    exSet.balance = some 1200 := by
  refine ⟨rfl, by decide, by decide⟩

/-! ## C10 -/

/-- C10: partially refuted — composing on `w1000` with amount 400 and
fee 100 records a pending entry whose amount is `400 + 100` and returns
`amount = 400 + 100` as the claim states, but the wallet balance
recomputed immediately afterwards is NaN (from the missing
`utxoSet.totalBalance`), not the known-UTXO sum minus the debit. -/
theorem composeTx_amount_plus_fee_balance_nan :
    (w1000.composeTx 400 100 txId1 raw1).toOption.map
        (fun pr => (pr.2.amount, lookupId pr.1.pending.transactions txId1,
                    pr.1.balance)) =
      some (400 + 100,
            some { utxoIds := [idA0], rawTx := raw1, amount := 400 + 100 },
            some JsNumber.nan) ∧
    JsNumber.nan ≠ JsNumber.int ((1000 : Int) - (400 + 100)) := by
  refine ⟨by decide, by decide⟩

/-! ## C5 counterexample -/

/-- Activity exactly at derivation indices 0, 2, 5 and 21. -/
def active4 : Nat → Bool := fun i => i == 0 || i == 2 || i == 5 || i == 21

/-- C5 counterexample: with threshold 20 and activity at {0, 2, 5, 21}
(all gaps smaller than the threshold), discovery starting from
`(n = threshold, offset = 0)` terminates with 27 — an index with no
activity at all — instead of the highest active index 21. -/
theorem addressDiscovery_returns_inactive_index :
    doDiscovery active4 20 5 20 0 = some 27 ∧
    active4 21 = true ∧
    active4 27 = false := by
  refine ⟨by decide, by decide, by decide⟩

/-! ## C8 counterexample -/

/-- A UtxoSet whose only known UTXO is already reserved. -/
def cxSet : UtxoSet :=
  { utxos := [(idA0, outA)], inUse := [idA0], availableBalance := 0,
    balance := none }

/-- C8 counterexample: reserving an id that is already in the in-use set
and then releasing it is not a no-op — reserve is `inUse.push` (duplicates
the entry), and release filters out every occurrence, so the previously
reserved id `a0` ends up not in use. -/
theorem reserve_release_overlap_cx :
    ((cxSet.reserve [idA0]).enable [idA0]).inUse = [] ∧
    cxSet.inUse = [idA0] := by
  refine ⟨by decide, rfl⟩

/-! ## C9 counterexample -/

/-- First pending payload. -/
def ptx1 : PendingTx := { utxoIds := ["i1"], rawTx := "r1", amount := 5 }

/-- Second pending payload, different from the first. -/
def ptx2 : PendingTx := { utxoIds := ["i2"], rawTx := "r2", amount := 7 }

/-- Pending id reused in the C9 counterexample. -/
def idP : String := "p"

/-- C9 counterexample: recording under an already-tracked id does not fail —
`pending.add` silently replaces the existing entry (`transactions[id] = tx`),
so after two adds under `p` the ledger holds `ptx2`, not `ptx1`. -/
theorem pending_add_overwrite_cx :
    ((({ transactions := [] } : PendingTransactions).add idP ptx1).add
        idP ptx2).transactions = [(idP, ptx2)] ∧
    ptx1 ≠ ptx2 := by
  refine ⟨by decide, by decide⟩

/-! ## Helper lemmas -/

theorem jsIndexOf_ge_neg_one (l : List String) (x : String) :
    -1 ≤ jsIndexOf l x := by
  induction l with
  | nil => simp [jsIndexOf]
  | cons a rest ih =>
    simp only [jsIndexOf]
    split
    · omega
    · split <;> omega

theorem jsIndexOf_eq_neg_one_iff (l : List String) (x : String) :
    jsIndexOf l x = -1 ↔ x ∉ l := by
  induction l with
  | nil => simp [jsIndexOf]
  | cons a rest ih =>
    have hge := jsIndexOf_ge_neg_one rest x
    simp only [jsIndexOf, List.mem_cons]
    by_cases hax : a = x
    · simp [hax]
    · rw [if_neg hax]
      by_cases hr : jsIndexOf rest x = -1
      · rw [if_pos hr]
        have hxr : x ∉ rest := ih.mp hr
        constructor
        · intro _ hc
          rcases hc with hc | hc
          · exact hax hc.symm
          · exact hxr hc
        · intro _; rfl
      · rw [if_neg hr]
        constructor
        · intro h; omega
        · intro hc
          exfalso
          exact hc (Or.inr (by
            by_contra hxr
            exact hr (ih.mpr hxr)))

/-! ## C8 -/

/-- C8 (amended): reserving ids that are not currently in use and then
releasing the same ids restores the entire UtxoSet state: reserve is
`inUse.push(...ids)` and release (`enable`) filters those ids back out. -/
theorem reserve_release_roundtrip (s : UtxoSet) (ids : List String)
    (hdisj : ∀ id ∈ ids, id ∉ s.inUse) :
    (s.reserve ids).enable ids = s := by
  have hkeep : s.inUse.filter (fun id => jsIndexOf ids id = -1) = s.inUse := by
    rw [List.filter_eq_self]
    intro a ha
    have : a ∉ ids := fun hc => hdisj a hc ha
    simp [jsIndexOf_eq_neg_one_iff, this]
  have hdrop : ids.filter (fun id => jsIndexOf ids id = -1) = [] := by
    rw [List.filter_eq_nil_iff]
    intro a ha
    simp [jsIndexOf_eq_neg_one_iff, ha]
  show ({ s with inUse := (s.inUse ++ ids).filter (fun id => decide (jsIndexOf ids id = -1)) } : UtxoSet) = s
  rw [List.filter_append, hkeep, hdrop, List.append_nil]

/-- C8 witness: on the concrete example set (nothing in use), reserving and
then releasing the single id `a0` gives back exactly the original state. -/
theorem reserve_release_roundtrip_witness :
    (exSet.reserve [idA0]).enable [idA0] = exSet :=
  reserve_release_roundtrip exSet [idA0] (by decide)

theorem lookupId_setKey_self {α : Type} (l : List (String × α))
    (id : String) (tx : α) :
    lookupId (setKey l id tx) id = some tx := by
  induction l with
  | nil => simp [setKey, lookupId]
  | cons p rest ih =>
    obtain ⟨a, v⟩ := p
    by_cases hak : a = id
    · simp [setKey, hak, lookupId]
    · simp [setKey, hak, lookupId, ih]

theorem lookupId_setKey_ne {α : Type} (l : List (String × α))
    (id : String) (tx : α) (k : String) (h : k ≠ id) :
    lookupId (setKey l id tx) k = lookupId l k := by
  have hik : id ≠ k := Ne.symm h
  induction l with
  | nil => simp [setKey, lookupId, hik]
  | cons p rest ih =>
    obtain ⟨a, v⟩ := p
    by_cases hak : a = id
    · subst hak
      simp [setKey, lookupId, hik]
    · by_cases hk2 : a = k
      · subst hk2
        simp [setKey, lookupId, hak]
      · simp [setKey, lookupId, hak, hk2, ih]

theorem setKey_of_fresh {α : Type} (l : List (String × α))
    (id : String) (tx : α) (h : lookupId l id = none) :
    setKey l id tx = l ++ [(id, tx)] := by
  induction l with
  | nil => simp [setKey]
  | cons p rest ih =>
    obtain ⟨a, v⟩ := p
    by_cases hak : a = id
    · simp [lookupId, hak] at h
    · have h2 : lookupId rest id = none := by simpa [lookupId, hak] using h
      simp [setKey, hak, ih h2]

/-- C9 (amended): `pending.add` inserts under a fresh id (appended in
insertion order) and silently replaces the entry under an already-tracked
id — no `DuplicatePendingId` failure exists; entries under other ids are
untouched. -/
theorem pending_add_spec (p : PendingTransactions) (id : String)
    (tx : PendingTx) :
    lookupId (p.add id tx).transactions id = some tx ∧
    (∀ k, k ≠ id →
      lookupId (p.add id tx).transactions k = lookupId p.transactions k) ∧
    (lookupId p.transactions id = none →
      (p.add id tx).transactions = p.transactions ++ [(id, tx)]) :=
  ⟨lookupId_setKey_self p.transactions id tx,
   fun k hk => lookupId_setKey_ne p.transactions id tx k hk,
   fun h => setKey_of_fresh p.transactions id tx h⟩

/-- C9 witness: recording the payload `ptx1` under the fresh id `p` in an
empty ledger appends exactly that entry. -/
theorem pending_add_spec_witness :
    (({ transactions := [] } : PendingTransactions).add idP ptx1).transactions =
      ([] : List (String × PendingTx)) ++ [(idP, ptx1)] :=
  (pending_add_spec { transactions := [] } idP ptx1).2.2 (by rfl)

/-- The known entries whose key is not in the given in-use list, in
insertion order. -/
def notInUseL (inUse : List String) (l : List (String × UnspentOutput)) :
    List (String × UnspentOutput) :=
  l.filter (fun p => decide (p.1 ∉ inUse))

/-- The known UTXO entries of `s` that are not in use (spec §3). -/
def notInUse (s : UtxoSet) : List (String × UnspentOutput) :=
  notInUseL s.inUse s.utxos

/-- Total value of a list of UTXO entries. -/
def entriesSum (l : List (String × UnspentOutput)) : Nat :=
  (l.map (fun p => p.2.satoshis)).sum

theorem entriesSum_nil : entriesSum [] = 0 := rfl

theorem entriesSum_cons (p : String × UnspentOutput)
    (l : List (String × UnspentOutput)) :
    entriesSum (p :: l) = p.2.satoshis + entriesSum l := by
  simp [entriesSum]

theorem entriesSum_take_le (l : List (String × UnspentOutput)) (k : Nat) :
    entriesSum (l.take k) ≤ entriesSum l := by
  conv_rhs => rw [← List.take_append_drop k l]
  simp only [entriesSum, List.map_append, List.sum_append]
  exact Nat.le_add_right _ _

theorem selectLoop_spec (inUse : List String) (amount : Nat) :
    ∀ (l : List (String × UnspentOutput)) (total : Nat), total < amount →
      ∃ k,
        (UtxoSet.selectLoop inUse amount l total).1 =
            ((notInUseL inUse l).take k).map Prod.fst ∧
        (UtxoSet.selectLoop inUse amount l total).2.1 =
            ((notInUseL inUse l).take k).map Prod.snd ∧
        (UtxoSet.selectLoop inUse amount l total).2.2 =
            total + entriesSum ((notInUseL inUse l).take k) ∧
        ((UtxoSet.selectLoop inUse amount l total).2.2 < amount →
            (notInUseL inUse l).take k = notInUseL inUse l) ∧
        (amount ≤ (UtxoSet.selectLoop inUse amount l total).2.2 →
            1 ≤ k ∧ total + entriesSum ((notInUseL inUse l).take (k - 1)) < amount) := by
  intro l
  induction l with
  | nil =>
    intro total htot
    refine ⟨0, by simp [UtxoSet.selectLoop, notInUseL],
            by simp [UtxoSet.selectLoop, notInUseL],
            by simp [UtxoSet.selectLoop, notInUseL, entriesSum],
            by simp [UtxoSet.selectLoop, notInUseL],
            by simp [UtxoSet.selectLoop]; omega⟩
  | cons p rest ih =>
    intro total htot
    obtain ⟨utxoId, utxo⟩ := p
    by_cases hin : jsIndexOf inUse utxoId = -1
    · have hnotin : utxoId ∉ inUse := (jsIndexOf_eq_neg_one_iff inUse utxoId).mp hin
      have hF : notInUseL inUse ((utxoId, utxo) :: rest) =
          (utxoId, utxo) :: notInUseL inUse rest := by
        simp [notInUseL, hnotin]
      by_cases hbr : amount ≤ total + utxo.satoshis
      · have hloop : UtxoSet.selectLoop inUse amount ((utxoId, utxo) :: rest) total =
            ([utxoId], [utxo], total + utxo.satoshis) := by
          simp [UtxoSet.selectLoop, hin, hbr]
        refine ⟨1, ?_, ?_, ?_, ?_, ?_⟩ <;> rw [hloop, hF]
        · simp
        · simp
        · simp [entriesSum]
        · intro hc
          dsimp only at hc
          omega
        · intro _; exact ⟨le_refl 1, by simp [entriesSum]; omega⟩
      · have htot1 : total + utxo.satoshis < amount := by omega
        obtain ⟨k2, h1, h2, h3, h4, h5⟩ := ih (total + utxo.satoshis) htot1
        have hloop : UtxoSet.selectLoop inUse amount ((utxoId, utxo) :: rest) total =
            (utxoId :: (UtxoSet.selectLoop inUse amount rest (total + utxo.satoshis)).1,
             utxo :: (UtxoSet.selectLoop inUse amount rest (total + utxo.satoshis)).2.1,
             (UtxoSet.selectLoop inUse amount rest (total + utxo.satoshis)).2.2) := by
          simp [UtxoSet.selectLoop, hin, hbr]
        refine ⟨k2 + 1, ?_, ?_, ?_, ?_, ?_⟩ <;> rw [hloop, hF]
        · simp [List.take_succ_cons, h1]
        · simp [List.take_succ_cons, h2]
        · simp [List.take_succ_cons, entriesSum_cons, h3]; omega
        · intro hc
          simp only [List.take_succ_cons]
          rw [h4 hc]
        · intro hge
          obtain ⟨hk2, hmin⟩ := h5 hge
          refine ⟨by omega, ?_⟩
          have hk : k2 + 1 - 1 = k2 := by omega
          rw [hk]
          obtain ⟨k3, hk3⟩ : ∃ k3, k2 = k3 + 1 := ⟨k2 - 1, by omega⟩
          subst hk3
          simp only [List.take_succ_cons, entriesSum_cons]
          have : k3 + 1 - 1 = k3 := by omega
          rw [this] at hmin
          omega
    · have hnotin : utxoId ∈ inUse := by
        by_contra hc
        exact hin ((jsIndexOf_eq_neg_one_iff inUse utxoId).mpr hc)
      have hF : notInUseL inUse ((utxoId, utxo) :: rest) = notInUseL inUse rest := by
        simp [notInUseL, hnotin]
      have hloop : UtxoSet.selectLoop inUse amount ((utxoId, utxo) :: rest) total =
          UtxoSet.selectLoop inUse amount rest total := by
        have hng : ¬ amount ≤ total := by omega
        simp [UtxoSet.selectLoop, hin, hng]
      obtain ⟨k2, h1, h2, h3, h4, h5⟩ := ih total htot
      exact ⟨k2, by rw [hloop, hF]; exact h1, by rw [hloop, hF]; exact h2,
             by rw [hloop, hF]; exact h3, by rw [hloop, hF]; exact h4,
             by rw [hloop, hF]; exact h5⟩

/-- C4: `selectUtxos` scans known not-in-use UTXOs in insertion order
accumulating until the target is reached, stopping early (the sum of the
selection minus its last element is below the target); a successful
selection never sums below the target; when the whole not-in-use set sums
below the target it fails with InsufficientFunds reporting the scanned sum;
and on the spec §8 example (500 then 700, target 600) it returns both
entries, not just the second. -/
theorem selectUtxos_spec :
    (∀ (s : UtxoSet) (amount : Nat) (ids : List String) (us : List UnspentOutput),
        s.selectUtxos amount = Except.ok (ids, us) →
          amount ≤ (us.map (fun u => u.satoshis)).sum ∧
          (1 ≤ amount → ∃ k,
            ids = ((notInUse s).take k).map Prod.fst ∧
            us = ((notInUse s).take k).map Prod.snd ∧
            entriesSum ((notInUse s).take (k - 1)) < amount)) ∧
    (∀ (s : UtxoSet) (amount : Nat),
        entriesSum (notInUse s) < amount →
          s.selectUtxos amount =
            Except.error (WalletError.insufficientFunds amount
              (entriesSum (notInUse s)))) ∧
    exSet.selectUtxos 600 = Except.ok (["tx10", "tx20"], [exOut1, exOut2]) := by
  refine ⟨?_, ?_, rfl⟩
  · intro s amount ids us hok
    by_cases hlt : (UtxoSet.selectLoop s.inUse amount s.utxos 0).2.2 < amount
    · simp [UtxoSet.selectUtxos, hlt] at hok
    · simp only [UtxoSet.selectUtxos, if_neg hlt, Except.ok.injEq, Prod.mk.injEq] at hok
      obtain ⟨hids, hus⟩ := hok
      rcases Nat.eq_zero_or_pos amount with h0 | h1
      · subst h0
        refine ⟨Nat.zero_le _, ?_⟩
        intro hc; omega
      · obtain ⟨k, e1, e2, e3, _e4, e5⟩ := selectLoop_spec s.inUse amount s.utxos 0 h1
        have hsum : (us.map (fun u => u.satoshis)).sum =
            entriesSum ((notInUseL s.inUse s.utxos).take k) := by
          rw [← hus, e2, List.map_map]
          rfl
        refine ⟨by rw [hsum]; omega, ?_⟩
        intro _
        refine ⟨k, ?_, ?_, ?_⟩
        · rw [← hids, e1]; rfl
        · rw [← hus, e2]; rfl
        · simpa only [notInUse, Nat.zero_add] using (e5 (by omega)).2
  · intro s amount hlt
    simp only [notInUse] at hlt ⊢
    have h1 : 1 ≤ amount := by omega
    obtain ⟨k, _e1, _e2, e3, e4, _e5⟩ := selectLoop_spec s.inUse amount s.utxos 0 h1
    have htake : entriesSum ((notInUseL s.inUse s.utxos).take k) ≤
        entriesSum (notInUseL s.inUse s.utxos) := entriesSum_take_le _ _
    have hrlt : (UtxoSet.selectLoop s.inUse amount s.utxos 0).2.2 < amount := by omega
    have hfull : (UtxoSet.selectLoop s.inUse amount s.utxos 0).2.2 =
        entriesSum (notInUseL s.inUse s.utxos) := by
      rw [e3, e4 hrlt]; omega
    show (if (UtxoSet.selectLoop s.inUse amount s.utxos 0).2.2 < amount then
            Except.error (WalletError.insufficientFunds amount
              (UtxoSet.selectLoop s.inUse amount s.utxos 0).2.2)
          else Except.ok ((UtxoSet.selectLoop s.inUse amount s.utxos 0).1,
              (UtxoSet.selectLoop s.inUse amount s.utxos 0).2.1)) =
        Except.error (WalletError.insufficientFunds amount
          (entriesSum (notInUseL s.inUse s.utxos)))
    rw [if_pos hrlt, hfull]

/-- C4 witness: on the example set (values 500 and 700, everything
available), requesting 2000 exceeds the full not-in-use sum 1200, and
selection fails with InsufficientFunds exposing that scanned sum. -/
theorem selectUtxos_spec_witness :
    exSet.selectUtxos 2000 =
      Except.error (WalletError.insufficientFunds 2000
        (entriesSum (notInUse exSet))) ∧
    entriesSum (notInUse exSet) = 1200 :=
  ⟨selectUtxos_spec.2.1 exSet 2000 (by decide), by decide⟩

theorem lookupId_append {α : Type} (l1 l2 : List (String × α)) (k : String) :
    lookupId (l1 ++ l2) k =
      if (lookupId l1 k).isSome then lookupId l1 k else lookupId l2 k := by
  induction l1 with
  | nil => simp [lookupId]
  | cons p rest ih =>
    obtain ⟨a, v⟩ := p
    by_cases hak : a = k
    · simp [lookupId, hak]
    · simp only [List.cons_append, lookupId, if_neg hak]
      exact ih

theorem lookupId_append_none_iff {α : Type} (l : List (String × α))
    (i0 : String) (v : α) (id : String) :
    lookupId (l ++ [(i0, v)]) id = none ↔
      (lookupId l id = none ∧ id ≠ i0) := by
  rw [lookupId_append]
  by_cases h : (lookupId l id).isSome
  · rw [if_pos h]
    constructor
    · intro hc; rw [hc] at h; simp at h
    · rintro ⟨hc, -⟩; exact hc
  · rw [if_neg h]
    have hnone : lookupId l id = none := Option.not_isSome_iff_eq_none.mp h
    by_cases hii : i0 = id
    · subst hii
      simp [lookupId, hnone]
    · simp [lookupId, hii, hnone]
      exact fun hc => hii hc.symm

theorem lookupId_append_isSome_iff {α : Type} (l : List (String × α))
    (i0 : String) (v : α) (id : String) :
    (lookupId (l ++ [(i0, v)]) id).isSome = true ↔
      ((lookupId l id).isSome = true ∨ id = i0) := by
  rw [lookupId_append]
  by_cases h : (lookupId l id).isSome
  · rw [if_pos h]; simp [h]
  · rw [if_neg h]
    by_cases hii : i0 = id
    · subst hii
      simp [lookupId, h]
    · simp [lookupId, hii, h]
      exact fun hc => hii hc.symm

theorem addLoop_mem_ids (inUse : List String) (addr : String) :
    ∀ (l : List ApiUtxo) (acc : List (String × UnspentOutput)) (id : String),
      id ∈ (UtxoSet.addLoop inUse addr l acc).2 ↔
        (id ∈ l.map apiUtxoId ∧ lookupId acc id = none) := by
  intro l
  induction l with
  | nil => intro acc id; simp [UtxoSet.addLoop]
  | cons u rest ih =>
    intro acc id
    by_cases hk : (lookupId acc (apiUtxoId u)).isNone
    · have hloop : UtxoSet.addLoop inUse addr (u :: rest) acc =
          ((UtxoSet.addLoop inUse addr rest (acc ++ [(apiUtxoId u,
             { txid := u.transactionId, address := addr, vout := u.index,
               scriptPubKey := u.scriptPubKey, satoshis := u.value })])).1,
           apiUtxoId u ::
             (UtxoSet.addLoop inUse addr rest (acc ++ [(apiUtxoId u,
               { txid := u.transactionId, address := addr, vout := u.index,
                 scriptPubKey := u.scriptPubKey, satoshis := u.value })])).2) := by
        simp [UtxoSet.addLoop, hk, jsNumStrictNeqStr]
      have hk0 : lookupId acc (apiUtxoId u) = none :=
        Option.isNone_iff_eq_none.mp hk
      rw [hloop]
      simp only [List.mem_cons, List.map_cons, ih]
      constructor
      · rintro (rfl | ⟨hmem, hnone1⟩)
        · exact ⟨Or.inl rfl, hk0⟩
        · obtain ⟨hnone, -⟩ := (lookupId_append_none_iff acc (apiUtxoId u) _ id).mp hnone1
          exact ⟨Or.inr hmem, hnone⟩
      · rintro ⟨hor, hnone⟩
        by_cases hid : id = apiUtxoId u
        · exact Or.inl hid
        · rcases hor with hc | hmem
          · exact absurd hc hid
          · exact Or.inr ⟨hmem,
              (lookupId_append_none_iff acc (apiUtxoId u) _ id).mpr ⟨hnone, hid⟩⟩
    · have hloop : UtxoSet.addLoop inUse addr (u :: rest) acc =
          UtxoSet.addLoop inUse addr rest acc := by
        simp [UtxoSet.addLoop, hk, jsNumStrictNeqStr]
      have hsome : (lookupId acc (apiUtxoId u)).isSome = true := by
        rcases hv : lookupId acc (apiUtxoId u) with _ | v
        · rw [hv] at hk; simp at hk
        · simp
      rw [hloop, ih]
      simp only [List.map_cons, List.mem_cons]
      constructor
      · rintro ⟨hmem, hnone⟩; exact ⟨Or.inr hmem, hnone⟩
      · rintro ⟨hor, hnone⟩
        rcases hor with rfl | hmem
        · rw [hnone] at hsome; simp at hsome
        · exact ⟨hmem, hnone⟩

theorem addLoop_lookup (inUse : List String) (addr : String) :
    ∀ (l : List ApiUtxo) (acc : List (String × UnspentOutput)) (id : String),
      (lookupId (UtxoSet.addLoop inUse addr l acc).1 id).isSome = true ↔
        ((lookupId acc id).isSome = true ∨
          id ∈ (UtxoSet.addLoop inUse addr l acc).2) := by
  intro l
  induction l with
  | nil => intro acc id; simp [UtxoSet.addLoop]
  | cons u rest ih =>
    intro acc id
    by_cases hk : (lookupId acc (apiUtxoId u)).isNone
    · have hloop : UtxoSet.addLoop inUse addr (u :: rest) acc =
          ((UtxoSet.addLoop inUse addr rest (acc ++ [(apiUtxoId u,
             { txid := u.transactionId, address := addr, vout := u.index,
               scriptPubKey := u.scriptPubKey, satoshis := u.value })])).1,
           apiUtxoId u ::
             (UtxoSet.addLoop inUse addr rest (acc ++ [(apiUtxoId u,
               { txid := u.transactionId, address := addr, vout := u.index,
                 scriptPubKey := u.scriptPubKey, satoshis := u.value })])).2) := by
        simp [UtxoSet.addLoop, hk, jsNumStrictNeqStr]
      rw [hloop]
      simp only [List.mem_cons]
      rw [ih]
      rw [lookupId_append_isSome_iff]
      constructor
      · rintro (hs | hmem)
        · rcases hs with hs | rfl
          · exact Or.inl hs
          · exact Or.inr (Or.inl rfl)
        · exact Or.inr (Or.inr hmem)
      · rintro (hs | (rfl | hmem))
        · exact Or.inl (Or.inl hs)
        · exact Or.inl (Or.inr rfl)
        · exact Or.inr hmem
    · have hloop : UtxoSet.addLoop inUse addr (u :: rest) acc =
          UtxoSet.addLoop inUse addr rest acc := by
        simp [UtxoSet.addLoop, hk, jsNumStrictNeqStr]
      rw [hloop, ih]

theorem addLoop_stable (inUse : List String) (addr : String) :
    ∀ (l : List ApiUtxo) (acc : List (String × UnspentOutput)),
      (∀ u ∈ l, (lookupId acc (apiUtxoId u)).isSome = true) →
        UtxoSet.addLoop inUse addr l acc = (acc, []) := by
  intro l
  induction l with
  | nil => intro acc _; simp [UtxoSet.addLoop]
  | cons u rest ih =>
    intro acc hall
    have hu : (lookupId acc (apiUtxoId u)).isSome = true :=
      hall u (List.mem_cons_self u rest)
    have hk : (lookupId acc (apiUtxoId u)).isNone = false := by
      rcases hv : lookupId acc (apiUtxoId u) with _ | v
      · rw [hv] at hu; simp at hu
      · simp
    have hloop : UtxoSet.addLoop inUse addr (u :: rest) acc =
        UtxoSet.addLoop inUse addr rest acc := by
      simp [UtxoSet.addLoop, hk, jsNumStrictNeqStr]
    rw [hloop]
    exact ih acc (fun v hv => hall v (List.mem_cons_of_mem u hv))

/-- C7: under the spec §3 UtxoSet invariant (every in-use id is known),
`add` inserts exactly the incoming UTXOs whose outpoint key is neither
already known nor in use, returns exactly those newly inserted ids, and a
second `add` of the identical list is a no-op returning the empty list (so
every balance field is unchanged as well, the state being identical). -/
theorem add_dedup_and_idempotent (s : UtxoSet) (incoming : List ApiUtxo)
    (addr : String)
    (hinv : ∀ id ∈ s.inUse, (lookupId s.utxos id).isSome = true) :
    (∀ id, id ∈ (s.add incoming addr).2 ↔
        (id ∈ incoming.map apiUtxoId ∧ lookupId s.utxos id = none ∧
          id ∉ s.inUse)) ∧
    (∀ id, (lookupId (s.add incoming addr).1.utxos id).isSome = true ↔
        ((lookupId s.utxos id).isSome = true ∨ id ∈ (s.add incoming addr).2)) ∧
    (s.add incoming addr).1.add incoming addr = ((s.add incoming addr).1, []) := by
  refine ⟨?_, ?_, ?_⟩
  · intro id
    have h := addLoop_mem_ids s.inUse addr incoming s.utxos id
    constructor
    · intro hmem
      obtain ⟨h1, h2⟩ := h.mp hmem
      refine ⟨h1, h2, ?_⟩
      intro hc
      have := hinv id hc
      rw [h2] at this
      simp at this
    · rintro ⟨h1, h2, -⟩
      exact h.mpr ⟨h1, h2⟩
  · intro id
    exact addLoop_lookup s.inUse addr incoming s.utxos id
  · have hall : ∀ u ∈ incoming,
        (lookupId (UtxoSet.addLoop s.inUse addr incoming s.utxos).1
          (apiUtxoId u)).isSome = true := by
      intro u hu
      rw [addLoop_lookup]
      rcases hv : lookupId s.utxos (apiUtxoId u) with _ | v
      · refine Or.inr ?_
        exact (addLoop_mem_ids s.inUse addr incoming s.utxos
          (apiUtxoId u)).mpr ⟨List.mem_map_of_mem apiUtxoId hu, hv⟩
      · exact Or.inl (by simp [hv])
    have key := addLoop_stable s.inUse addr incoming
      (UtxoSet.addLoop s.inUse addr incoming s.utxos).1 hall
    show (UtxoSet.updateUtxoBalance
        { (s.add incoming addr).1 with
            utxos := (UtxoSet.addLoop s.inUse addr incoming
              (UtxoSet.addLoop s.inUse addr incoming s.utxos).1).1 },
        (UtxoSet.addLoop s.inUse addr incoming
          (UtxoSet.addLoop s.inUse addr incoming s.utxos).1).2) =
      ((s.add incoming addr).1, [])
    rw [key]
    rfl

/-- C7 witness: the invariant holds trivially for the empty set, and adding
the two example UTXOs twice is idempotent — the second call changes nothing
and inserts nothing. -/
theorem add_dedup_witness :
    (UtxoSet.empty.add [exApi1, exApi2] addrA).1.add [exApi1, exApi2] addrA =
      ((UtxoSet.empty.add [exApi1, exApi2] addrA).1, []) :=
  (add_dedup_and_idempotent UtxoSet.empty [exApi1, exApi2] addrA
    (by simp [UtxoSet.empty])).2.2

theorem foldl_max_le (l : List Nat) (a m : Nat) (ha : a ≤ m)
    (h : ∀ x ∈ l, x ≤ m) : l.foldl Nat.max a ≤ m := by
  induction l generalizing a with
  | nil => simpa using ha
  | cons b rest ih =>
    simp only [List.foldl_cons]
    refine ih (Nat.max a b)
      (Nat.max_le.mpr ⟨ha, h b (List.mem_cons_self b rest)⟩) ?_
    intro x hx
    exact h x (List.mem_cons_of_mem b hx)

theorem foldl_max_init_le (l : List Nat) (a : Nat) : a ≤ l.foldl Nat.max a := by
  induction l generalizing a with
  | nil => simp
  | cons b rest ih =>
    simp only [List.foldl_cons]
    exact le_trans (Nat.le_max_left a b) (ih (Nat.max a b))

theorem le_foldl_max (l : List Nat) : ∀ (a x : Nat), x ∈ l → x ≤ l.foldl Nat.max a := by
  induction l with
  | nil => intro a x hx; simp at hx
  | cons b rest ih =>
    intro a x hx
    simp only [List.foldl_cons]
    rcases List.mem_cons.mp hx with rfl | hmem
    · exact le_trans (Nat.le_max_right a x) (foldl_max_init_le rest (Nat.max a x))
    · exact ih (Nat.max a b) x hmem

theorem foldl_max_eq (l : List Nat) (m : Nat) (hm : m ∈ l)
    (hb : ∀ x ∈ l, x ≤ m) : l.foldl Nat.max 0 = m :=
  Nat.le_antisymm (foldl_max_le l 0 m (Nat.zero_le m) hb) (le_foldl_max l 0 m hm)

/-- C6: one step of the discovery recursion behaves exactly as the claim
states: if no address of the current batch (absolute indices
`[offset, offset + batchSize)`) is active, discovery returns
`offset - (threshold - batchSize) - 1`, which is `-1` on the initial batch
(no batch ever had activity); otherwise it recurses with batch size
`1 + (maximum index among the active addresses of this batch)` and the
offset increased by the previous batch size. -/
theorem doDiscovery_step (active : Nat → Bool) (threshold fuel n offset M : Nat) :
    ((((List.range n).map (fun i => offset + i)).filter active).length = 0 →
        doDiscovery active threshold (fuel + 1) n offset =
          some ((offset : Int) - ((threshold : Int) - (n : Int)) - 1)) ∧
    (offset = 0 → n = threshold →
        (((List.range n).map (fun i => offset + i)).filter active).length = 0 →
        doDiscovery active threshold (fuel + 1) n offset = some (-1)) ∧
    (M ∈ ((List.range n).map (fun i => offset + i)).filter active →
        (∀ x ∈ ((List.range n).map (fun i => offset + i)).filter active, x ≤ M) →
        doDiscovery active threshold (fuel + 1) n offset =
          doDiscovery active threshold fuel (1 + M) (offset + n)) := by
  refine ⟨?_, ?_, ?_⟩
  · intro h
    simp only [doDiscovery]
    rw [if_pos h]
  · intro h0 hn h
    subst h0
    subst hn
    simp only [doDiscovery]
    rw [if_pos h]
    congr 1
    omega
  · intro hM hub
    have hne : ¬ (((List.range n).map (fun i => offset + i)).filter active).length = 0 := by
      intro hc
      rw [List.length_eq_zero] at hc
      rw [hc] at hM
      simp at hM
    simp only [doDiscovery]
    rw [if_neg hne, foldl_max_eq _ M hM hub, Nat.add_comm M 1]

/-- C6 witness: with activity at {0, 2, 5}, threshold 20, the first batch
(indices 0-19) is active with maximum active index 5, so the step recurses
with batch size 6 at offset 20. -/
theorem doDiscovery_step_witness :
    doDiscovery (fun i => i == 0 || i == 2 || i == 5) 20 2 20 0 =
      doDiscovery (fun i => i == 0 || i == 2 || i == 5) 20 1 (1 + 5) (0 + 20) :=
  (doDiscovery_step (fun i => i == 0 || i == 2 || i == 5) 20 1 20 0 5).2.2
    (by decide) (by decide)

/-- C5 (amended): whenever every active derivation index lies below
`threshold` (all activity inside the first scan window), per-chain
discovery started at `(batchSize = threshold, offset = 0)` terminates
(any recursion budget of at least 2 suffices) with the highest active
index — `-1` when there is no activity — and advancing a cursor at 0 by
`highest + 1` moves it to `highest + 1` (so it stays at 0 in the
no-activity case).  With activity in a later batch the result can differ
from the highest active index (see the counterexample). -/
theorem addressDiscovery_first_window (active : Nat → Bool) (threshold m : Nat)
    (hbound : ∀ i, active i = true → i < threshold) :
    ((∀ i, active i = false) → ∀ fuel, 1 ≤ fuel →
        doDiscovery active threshold fuel threshold 0 = some (-1) ∧
        advanceCursor 0 ((-1 : Int) + 1) = 0) ∧
    (active m = true → (∀ i, active i = true → i ≤ m) → ∀ fuel, 2 ≤ fuel →
        doDiscovery active threshold fuel threshold 0 = some ((m : Nat) : Int) ∧
        advanceCursor 0 (((m : Nat) : Int) + 1) = m + 1) := by
  constructor
  · intro hnone fuel hf
    obtain ⟨k, rfl⟩ : ∃ k, fuel = k + 1 := ⟨fuel - 1, by omega⟩
    have hempty : (((List.range threshold).map (fun i => (0 : Nat) + i)).filter
        active).length = 0 := by
      rw [List.length_eq_zero, List.filter_eq_nil_iff]
      intro a _
      simp [hnone a]
    refine ⟨?_, by decide⟩
    simp only [doDiscovery]
    rw [if_pos hempty]
    congr 1
    omega
  · intro hm hub fuel hf
    obtain ⟨k, rfl⟩ : ∃ k, fuel = (k + 1) + 1 := ⟨fuel - 2, by omega⟩
    have hmlt : m < threshold := hbound m hm
    have hmem : m ∈ ((List.range threshold).map (fun i => (0 : Nat) + i)).filter active := by
      rw [List.mem_filter]
      refine ⟨?_, hm⟩
      rw [List.mem_map]
      exact ⟨m, List.mem_range.mpr hmlt, by omega⟩
    have hub2 : ∀ x ∈ ((List.range threshold).map (fun i => (0 : Nat) + i)).filter active,
        x ≤ m := by
      intro x hx
      exact hub x (List.mem_filter.mp hx).2
    have hne : ¬ (((List.range threshold).map (fun i => (0 : Nat) + i)).filter
        active).length = 0 := by
      intro hc
      rw [List.length_eq_zero] at hc
      rw [hc] at hmem
      simp at hmem
    have hstep1 : doDiscovery active threshold ((k + 1) + 1) threshold 0 =
        doDiscovery active threshold (k + 1) (m + 1) (0 + threshold) := by
      simp only [doDiscovery]
      rw [if_neg hne, foldl_max_eq _ m hmem hub2]
    have hempty2 : (((List.range (m + 1)).map (fun i => ((0 : Nat) + threshold) + i)).filter
        active).length = 0 := by
      rw [List.length_eq_zero, List.filter_eq_nil_iff]
      intro a ha
      obtain ⟨b, _, rfl⟩ := List.mem_map.mp ha
      by_contra hc
      have := hbound (0 + threshold + b) (by simpa using hc)
      omega
    have hstep2 : doDiscovery active threshold (k + 1) (m + 1) (0 + threshold) =
        some (((0 + threshold : Nat) : Int) - ((threshold : Int) - ((m + 1 : Nat) : Int)) - 1) := by
      simp only [doDiscovery]
      rw [if_pos hempty2]
    refine ⟨?_, ?_⟩
    · rw [hstep1, hstep2]
      congr 1
      push_cast
      ring
    · simp only [advanceCursor, Nat.zero_max]
      omega

/-- Activity exactly at derivation indices 0, 2 and 5 (spec §8 example). -/
def active025 : Nat → Bool := fun i => i == 0 || i == 2 || i == 5

/-- C5 witness: with threshold 20 and activity only at {0, 2, 5} (all below
the threshold), discovery returns highest active index 5 and the cursor at
0 advances to 6. -/
theorem addressDiscovery_first_window_witness :
    doDiscovery active025 20 2 20 0 = some ((5 : Nat) : Int) ∧
    advanceCursor 0 (((5 : Nat) : Int) + 1) = 5 + 1 :=
  (addressDiscovery_first_window active025 20 5
      (by
        intro i h
        simp only [active025, Bool.or_eq_true, beq_iff_eq] at h
        omega)).2
    (by decide)
    (by
      intro i h
      simp only [active025, Bool.or_eq_true, beq_iff_eq] at h
      omega)
    2 (le_refl 2)
